import Mathlib

/-!
Verification development for the `tokenizer` file-content search engine.

The Rust sources are shallowly embedded: byte slices become `List Nat`
(each element a byte value), machine counters become `Nat`, fallible
operations return `Option`/`Except`, and the `FxHashMap`/`RoaringBitmap`
containers are modelled by association lists and ascending duplicate-free
`List Nat` bitmaps.  The 64-bit FxHash of a token (an external library
function whose exact value no claim depends on) is kept abstract: the
embedding is parameterised by a key type `κ` and a function
`hashToken : List Nat → κ`.
-/

namespace Tokenizer

/-! ## Byte classification (src/tokenizer.rs, src/trigram.rs) -/

/-- Minimum token length to include (`MIN_TOKEN_LENGTH` in src/tokenizer.rs). -/
def MIN_TOKEN_LENGTH : Nat := 2

/-- Minimum length for a token to generate trigrams from
(`MIN_TRIGRAM_TOKEN_LENGTH` in src/trigram.rs). -/
def MIN_TRIGRAM_TOKEN_LENGTH : Nat := 3

/-- `u8::is_ascii_alphanumeric`: `0-9`, `A-Z`, `a-z`. -/
def isAsciiAlphanumeric (b : Nat) : Bool :=
  (48 ≤ b && b ≤ 57) || (65 ≤ b && b ≤ 90) || (97 ≤ b && b ≤ 122)

/-- `is_exact_delimiter` from src/tokenizer.rs: whitespace, brackets,
quotes, operators, punctuation, and NUL, listed by byte value. -/
def is_exact_delimiter (b : Nat) : Bool :=
  b ∈ [32, 9, 10, 13,          -- space, tab, newline, carriage return
       40, 41, 91, 93, 123, 125, 60, 62,  -- parens, square/curly brackets, angle brackets
       34, 39, 96,              -- double quote, single quote, backtick
       44, 59, 58, 46, 43, 61, 47, 92, 64, 35, 36, 37, 94, 38, 42, 33, 63, 124, 126,
       0]                       -- null byte

/-- `is_exact_token_char` from src/tokenizer.rs: alphanumeric plus `_` (95) and `-` (45). -/
def is_exact_token_char (b : Nat) : Bool :=
  isAsciiAlphanumeric b || b == 95 || b == 45

/-- `is_trigram_token_char` from src/trigram.rs: alphanumeric plus `_` and `-`. -/
def is_trigram_token_char (b : Nat) : Bool :=
  isAsciiAlphanumeric b || b == 95 || b == 45

/-- `to_lowercase` from src/trigram.rs: add 32 to an ASCII uppercase byte. -/
def to_lowercase (b : Nat) : Nat :=
  if 65 ≤ b && b ≤ 90 then b + 32 else b

/-- `pack_trigram` from src/trigram.rs: `(a << 16) | (b << 8) | c`. -/
def pack_trigram (a b c : Nat) : Nat :=
  (a <<< 16) ||| (b <<< 8) ||| c

/-- `unpack_trigram` from src/trigram.rs. -/
def unpack_trigram (t : Nat) : Nat × Nat × Nat :=
  ((t >>> 16) &&& 255, (t >>> 8) &&& 255, t &&& 255)

/-! ## The shared scanning loop

All three iterators advance a cursor `position` over the byte slice.  The
`while` loops advancing the cursor while a byte predicate holds
(`skip_delimiters` / `read_token`) are captured by `advanceWhile`. -/

/-- Advance `pos` while it is in bounds and the byte at `pos` satisfies `f`
(the common shape of `skip_delimiters` and `read_token` in the source). -/
def advanceWhile (content : List Nat) (f : Nat → Bool) (pos : Nat) : Nat :=
  if pos < content.length && f (content.getD pos 0) then
    advanceWhile content f (pos + 1)
  else pos
termination_by content.length - pos
decreasing_by
  simp only [Bool.and_eq_true, decide_eq_true_eq] at *
  omega

theorem advanceWhile_le (content : List Nat) (f : Nat → Bool) (pos : Nat) :
    pos ≤ advanceWhile content f pos := by
  unfold advanceWhile
  split
  · exact Nat.le_trans (Nat.le_succ pos) (advanceWhile_le content f (pos + 1))
  · exact Nat.le_refl pos
termination_by content.length - pos
decreasing_by
  simp only [Bool.and_eq_true, decide_eq_true_eq] at *
  omega

theorem advanceWhile_le_length (content : List Nat) (f : Nat → Bool) (pos : Nat)
    (h : pos ≤ content.length) : advanceWhile content f pos ≤ content.length := by
  unfold advanceWhile
  split
  · next hcond =>
    simp only [Bool.and_eq_true, decide_eq_true_eq] at hcond
    exact advanceWhile_le_length content f (pos + 1) hcond.1
  · exact h
termination_by content.length - pos
decreasing_by
  simp only [Bool.and_eq_true, decide_eq_true_eq] at *
  omega

theorem advanceWhile_stop (content : List Nat) (f : Nat → Bool) (pos : Nat)
    (h : advanceWhile content f pos < content.length) :
    f (content.getD (advanceWhile content f pos) 0) = false := by
  by_cases hc : (pos < content.length && f (content.getD pos 0)) = true
  · rw [advanceWhile, if_pos hc] at h ⊢
    exact advanceWhile_stop content f (pos + 1) h
  · rw [advanceWhile, if_neg hc] at h ⊢
    simp only [Bool.and_eq_true, decide_eq_true_eq, not_and] at hc
    cases hf : f (content.getD pos 0)
    · rfl
    · exact absurd hf (hc h)
termination_by content.length - pos
decreasing_by
  simp only [Bool.and_eq_true, decide_eq_true_eq] at *
  omega

theorem lt_advanceWhile (content : List Nat) (f : Nat → Bool) (pos : Nat)
    (hpos : pos < content.length) (hf : f (content.getD pos 0) = true) :
    pos < advanceWhile content f pos := by
  rw [advanceWhile,
    if_pos (by simp only [Bool.and_eq_true, decide_eq_true_eq]; exact ⟨hpos, hf⟩)]
  exact Nat.lt_of_lt_of_le (Nat.lt_succ_self pos) (advanceWhile_le content f (pos + 1))

/-- Guarded unfolding of `advanceWhile` (step case), for evaluation on
concrete inputs. -/
theorem advanceWhile_step (content : List Nat) (f : Nat → Bool) (pos : Nat)
    (h : (pos < content.length && f (content.getD pos 0)) = true) :
    advanceWhile content f pos = advanceWhile content f (pos + 1) := by
  rw [advanceWhile, if_pos h]

/-- Guarded unfolding of `advanceWhile` (stop case). -/
theorem advanceWhile_done (content : List Nat) (f : Nat → Bool) (pos : Nat)
    (h : (pos < content.length && f (content.getD pos 0)) = false) :
    advanceWhile content f pos = pos := by
  have hc : ¬ (pos < content.length && f (content.getD pos 0)) = true := by
    rw [h]
    exact Bool.false_ne_true
  rw [advanceWhile, if_neg hc]

/-! ## Word tokenizer (`TokenIterator`, src/tokenizer.rs lines 29-91)

`TokenIterator::next` loops: skip non-alphanumeric bytes, stop at end of
input, read a maximal alphanumeric run, emit its hash when the run has
length ≥ `MIN_TOKEN_LENGTH`, otherwise continue.  The iterator below
yields the raw token slice; the hashed stream is its image under
`hashToken` (the source hashes each slice as it is produced). -/

/-- `TokenIterator::skip_delimiters`: advance past non-alphanumeric bytes. -/
def skipWordDelims (content : List Nat) (pos : Nat) : Nat :=
  advanceWhile content (fun b => !(isAsciiAlphanumeric b)) pos

/-- End position of `TokenIterator::read_token`: the maximal alphanumeric
run starting at `pos`. -/
def readWordEnd (content : List Nat) (pos : Nat) : Nat :=
  advanceWhile content isAsciiAlphanumeric pos

theorem skipWordDelims_progress (content : List Nat) (pos : Nat)
    (hp : skipWordDelims content pos < content.length) :
    pos ≤ skipWordDelims content pos ∧
      skipWordDelims content pos < readWordEnd content (skipWordDelims content pos) ∧
      readWordEnd content (skipWordDelims content pos) ≤ content.length := by
  refine ⟨advanceWhile_le _ _ _, ?_, advanceWhile_le_length _ _ _ (Nat.le_of_lt hp)⟩
  apply lt_advanceWhile _ _ _ hp
  have := advanceWhile_stop content (fun b => !(isAsciiAlphanumeric b)) pos hp
  simpa [skipWordDelims] using this

/-- One `TokenIterator::next` call, yielding the raw token bytes and the
new cursor position. -/
def tokenNextTok (content : List Nat) (pos : Nat) : Option (List Nat × Nat) :=
  if skipWordDelims content pos < content.length then
    if MIN_TOKEN_LENGTH ≤
        readWordEnd content (skipWordDelims content pos) - skipWordDelims content pos then
      some ((content.drop (skipWordDelims content pos)).take
              (readWordEnd content (skipWordDelims content pos) - skipWordDelims content pos),
            readWordEnd content (skipWordDelims content pos))
    else tokenNextTok content (readWordEnd content (skipWordDelims content pos))
  else none
termination_by content.length - pos
decreasing_by
  rename_i hp _
  have := skipWordDelims_progress content pos hp
  omega

theorem tokenNextTok_lt (content : List Nat) (pos : Nat) (tok : List Nat) (p2 : Nat)
    (h : tokenNextTok content pos = some (tok, p2)) :
    pos < p2 ∧ p2 ≤ content.length := by
  rw [tokenNextTok] at h
  split at h
  · next hp =>
    have hprog := skipWordDelims_progress content pos hp
    split at h
    · cases h
      exact ⟨by omega, hprog.2.2⟩
    · have ih := tokenNextTok_lt content _ tok p2 h
      exact ⟨by omega, ih.2⟩
  · exact absurd h (by simp)
termination_by content.length - pos
decreasing_by
  rename_i hp _
  have := skipWordDelims_progress content pos hp
  omega

/-- Guarded unfolding of `tokenNextTok`: end of input. -/
theorem tokenNextTok_of_end (content : List Nat) (pos : Nat)
    (h : ¬ skipWordDelims content pos < content.length) :
    tokenNextTok content pos = none := by
  rw [tokenNextTok, if_neg h]

/-- Guarded unfolding of `tokenNextTok`: a long-enough token is emitted. -/
theorem tokenNextTok_of_some (content : List Nat) (pos : Nat)
    (h1 : skipWordDelims content pos < content.length)
    (h2 : MIN_TOKEN_LENGTH ≤
      readWordEnd content (skipWordDelims content pos) - skipWordDelims content pos) :
    tokenNextTok content pos =
      some ((content.drop (skipWordDelims content pos)).take
              (readWordEnd content (skipWordDelims content pos) - skipWordDelims content pos),
            readWordEnd content (skipWordDelims content pos)) := by
  rw [tokenNextTok, if_pos h1, if_pos h2]

/-- Guarded unfolding of `tokenNextTok`: a too-short token is skipped. -/
theorem tokenNextTok_of_short (content : List Nat) (pos : Nat)
    (h1 : skipWordDelims content pos < content.length)
    (h2 : ¬ MIN_TOKEN_LENGTH ≤
      readWordEnd content (skipWordDelims content pos) - skipWordDelims content pos) :
    tokenNextTok content pos =
      tokenNextTok content (readWordEnd content (skipWordDelims content pos)) := by
  rw [tokenNextTok, if_pos h1, if_neg h2]

/-- Exhaust `TokenIterator`, collecting the raw token slices. -/
def tokenRun (content : List Nat) (pos : Nat) : List (List Nat) :=
  match h : tokenNextTok content pos with
  | none => []
  | some tp => tp.1 :: tokenRun content tp.2
termination_by content.length - pos
decreasing_by
  have := tokenNextTok_lt content pos tp.1 tp.2 (by rw [h])
  omega

theorem tokenRun_length_le (content : List Nat) (pos : Nat) :
    (tokenRun content pos).length ≤ content.length - pos := by
  rw [tokenRun]
  split
  · simp
  · next tp h =>
    have h1 := tokenNextTok_lt content pos tp.1 tp.2 (by rw [h])
    have h2 := tokenRun_length_le content tp.2
    simp only [List.length_cons]
    omega
termination_by content.length - pos
decreasing_by
  rename_i tp2 hx1 hx2 heq
  have := tokenNextTok_lt content pos tp2.1 tp2.2 (by rw [heq])
  omega

/-- Guarded unfolding of `tokenRun`: iterator exhausted. -/
theorem tokenRun_of_none (content : List Nat) (pos : Nat)
    (h : tokenNextTok content pos = none) : tokenRun content pos = [] := by
  rw [tokenRun.eq_def]
  split
  · rfl
  · next tp heq => rw [h] at heq; cases heq

/-- Guarded unfolding of `tokenRun`: one more token. -/
theorem tokenRun_of_some (content : List Nat) (pos : Nat) (tp : List Nat × Nat)
    (h : tokenNextTok content pos = some tp) :
    tokenRun content pos = tp.1 :: tokenRun content tp.2 := by
  rw [tokenRun.eq_def]
  split
  · next heq => rw [h] at heq; cases heq
  · next tp2 heq =>
    rw [h] at heq
    cases heq
    rfl

/-- `tokenize` from src/tokenizer.rs: the stream of token hashes. -/
def tokenize {κ : Type} (hashToken : List Nat → κ) (content : List Nat) : List κ :=
  (tokenRun content 0).map hashToken

/-- `tokenize_query` from src/tokenizer.rs (the query string's bytes). -/
def tokenize_query {κ : Type} (hashToken : List Nat → κ) (query : List Nat) : List κ :=
  tokenize hashToken query

/-! ## Exact-mode tokenizer (`ExactTokenIterator`, src/tokenizer.rs lines 148-211)

`ExactTokenIterator::next` loops: skip listed delimiters, stop at end of
input, read a maximal run of token bytes.  When the run is empty (a byte
that is neither a token byte nor a listed delimiter) `read_token`
advances the position by one and the loop continues; a read token is
emitted only when its length is ≥ `MIN_TOKEN_LENGTH`. -/

/-- `ExactTokenIterator::skip_delimiters`. -/
def skipExactDelims (content : List Nat) (pos : Nat) : Nat :=
  advanceWhile content is_exact_delimiter pos

/-- End position of `ExactTokenIterator::read_token`'s scanning loop. -/
def readExactEnd (content : List Nat) (pos : Nat) : Nat :=
  advanceWhile content is_exact_token_char pos

theorem skipExactDelims_bounds (content : List Nat) (pos : Nat) :
    pos ≤ skipExactDelims content pos ∧
      skipExactDelims content pos ≤ readExactEnd content (skipExactDelims content pos) ∧
      (skipExactDelims content pos ≤ content.length →
        readExactEnd content (skipExactDelims content pos) ≤ content.length) :=
  ⟨advanceWhile_le _ _ _, advanceWhile_le _ _ _, fun h => advanceWhile_le_length _ _ _ h⟩

/-- One `ExactTokenIterator::next` call, yielding the raw token bytes and
the new cursor position. -/
def exactNextTok (content : List Nat) (pos : Nat) : Option (List Nat × Nat) :=
  if skipExactDelims content pos < content.length then
    if skipExactDelims content pos < readExactEnd content (skipExactDelims content pos) then
      if MIN_TOKEN_LENGTH ≤
          readExactEnd content (skipExactDelims content pos) - skipExactDelims content pos then
        some ((content.drop (skipExactDelims content pos)).take
                (readExactEnd content (skipExactDelims content pos) -
                  skipExactDelims content pos),
              readExactEnd content (skipExactDelims content pos))
      else exactNextTok content (readExactEnd content (skipExactDelims content pos))
    else
      -- read_token read nothing: skip the unknown byte and continue the loop
      exactNextTok content (skipExactDelims content pos + 1)
  else none
termination_by content.length - pos
decreasing_by
  · have := skipExactDelims_bounds content pos
    rename_i hp hgt _
    omega
  · have := skipExactDelims_bounds content pos
    rename_i hp _
    omega

theorem exactNextTok_lt (content : List Nat) (pos : Nat) (tok : List Nat) (p2 : Nat)
    (h : exactNextTok content pos = some (tok, p2)) :
    pos < p2 ∧ p2 ≤ content.length := by
  rw [exactNextTok] at h
  have hb := skipExactDelims_bounds content pos
  split at h
  · next hp =>
    split at h
    · next hgt =>
      split at h
      · cases h
        exact ⟨by omega, hb.2.2 (Nat.le_of_lt hp)⟩
      · have ih := exactNextTok_lt content _ tok p2 h
        exact ⟨by omega, ih.2⟩
    · have ih := exactNextTok_lt content _ tok p2 h
      exact ⟨by omega, ih.2⟩
  · exact absurd h (by simp)
termination_by content.length - pos
decreasing_by
  · have := skipExactDelims_bounds content pos
    rename_i hp hgt _
    omega
  · have := skipExactDelims_bounds content pos
    rename_i hp _
    omega

/-- Guarded unfolding of `exactNextTok`: end of input. -/
theorem exactNextTok_of_end (content : List Nat) (pos : Nat)
    (h : ¬ skipExactDelims content pos < content.length) :
    exactNextTok content pos = none := by
  rw [exactNextTok, if_neg h]

/-- Guarded unfolding of `exactNextTok`: a long-enough token is emitted. -/
theorem exactNextTok_of_some (content : List Nat) (pos : Nat)
    (h1 : skipExactDelims content pos < content.length)
    (h2 : skipExactDelims content pos < readExactEnd content (skipExactDelims content pos))
    (h3 : MIN_TOKEN_LENGTH ≤
      readExactEnd content (skipExactDelims content pos) - skipExactDelims content pos) :
    exactNextTok content pos =
      some ((content.drop (skipExactDelims content pos)).take
              (readExactEnd content (skipExactDelims content pos) - skipExactDelims content pos),
            readExactEnd content (skipExactDelims content pos)) := by
  rw [exactNextTok, if_pos h1, if_pos h2, if_pos h3]

/-- Guarded unfolding of `exactNextTok`: a too-short token is skipped. -/
theorem exactNextTok_of_short (content : List Nat) (pos : Nat)
    (h1 : skipExactDelims content pos < content.length)
    (h2 : skipExactDelims content pos < readExactEnd content (skipExactDelims content pos))
    (h3 : ¬ MIN_TOKEN_LENGTH ≤
      readExactEnd content (skipExactDelims content pos) - skipExactDelims content pos) :
    exactNextTok content pos =
      exactNextTok content (readExactEnd content (skipExactDelims content pos)) := by
  rw [exactNextTok, if_pos h1, if_pos h2, if_neg h3]

/-- Guarded unfolding of `exactNextTok`: an unknown byte is stepped over. -/
theorem exactNextTok_of_unknown (content : List Nat) (pos : Nat)
    (h1 : skipExactDelims content pos < content.length)
    (h2 : ¬ skipExactDelims content pos < readExactEnd content (skipExactDelims content pos)) :
    exactNextTok content pos = exactNextTok content (skipExactDelims content pos + 1) := by
  rw [exactNextTok, if_pos h1, if_neg h2]

/-- Exhaust `ExactTokenIterator`, collecting the raw token slices. -/
def exactRun (content : List Nat) (pos : Nat) : List (List Nat) :=
  match h : exactNextTok content pos with
  | none => []
  | some tp => tp.1 :: exactRun content tp.2
termination_by content.length - pos
decreasing_by
  have := exactNextTok_lt content pos tp.1 tp.2 (by rw [h])
  omega

theorem exactRun_length_le (content : List Nat) (pos : Nat) :
    (exactRun content pos).length ≤ content.length - pos := by
  rw [exactRun]
  split
  · simp
  · next tp h =>
    have h1 := exactNextTok_lt content pos tp.1 tp.2 (by rw [h])
    have h2 := exactRun_length_le content tp.2
    simp only [List.length_cons]
    omega
termination_by content.length - pos
decreasing_by
  rename_i tp2 hx1 hx2 heq
  have := exactNextTok_lt content pos tp2.1 tp2.2 (by rw [heq])
  omega

/-- Guarded unfolding of `exactRun`: iterator exhausted. -/
theorem exactRun_of_none (content : List Nat) (pos : Nat)
    (h : exactNextTok content pos = none) : exactRun content pos = [] := by
  rw [exactRun.eq_def]
  split
  · rfl
  · next tp heq => rw [h] at heq; cases heq

/-- Guarded unfolding of `exactRun`: one more token. -/
theorem exactRun_of_some (content : List Nat) (pos : Nat) (tp : List Nat × Nat)
    (h : exactNextTok content pos = some tp) :
    exactRun content pos = tp.1 :: exactRun content tp.2 := by
  rw [exactRun.eq_def]
  split
  · next heq => rw [h] at heq; cases heq
  · next tp2 heq =>
    rw [h] at heq
    cases heq
    rfl

/-- `tokenize_exact` from src/tokenizer.rs: the exact-mode hash stream. -/
def tokenize_exact {κ : Type} (hashToken : List Nat → κ) (content : List Nat) : List κ :=
  (exactRun content 0).map hashToken

/-- `tokenize_query_exact` from src/tokenizer.rs. -/
def tokenize_query_exact {κ : Type} (hashToken : List Nat → κ) (query : List Nat) : List κ :=
  tokenize_exact hashToken query

/-! ## Trigram extractor (`TrigramIterator`, src/trigram.rs lines 49-144)

State: cursor `position` into the content, plus the current lowercased
token buffer `token_buf` and the sliding-window index `token_pos`. -/

/-- The mutable state of `TrigramIterator`. -/
structure TrigramState where
  position : Nat
  token_buf : List Nat
  token_pos : Nat
deriving DecidableEq

/-- `TrigramIterator::next_trigram_from_token`: emit the 3-byte window at
`token_pos` when it fits in the buffer, advancing `token_pos` by one. -/
def nextTrigramFromToken (s : TrigramState) : Option (Nat × TrigramState) :=
  if s.token_pos + 3 ≤ s.token_buf.length then
    some (pack_trigram (s.token_buf.getD s.token_pos 0) (s.token_buf.getD (s.token_pos + 1) 0)
            (s.token_buf.getD (s.token_pos + 2) 0),
          { s with token_pos := s.token_pos + 1 })
  else none

/-- Start of the next trigram token: skip non-token bytes. -/
def skipTrigramDelims (content : List Nat) (pos : Nat) : Nat :=
  advanceWhile content (fun b => !(is_trigram_token_char b)) pos

/-- End of the trigram token starting at `pos`. -/
def readTrigramEnd (content : List Nat) (pos : Nat) : Nat :=
  advanceWhile content is_trigram_token_char pos

theorem skipTrigramDelims_progress (content : List Nat) (pos : Nat)
    (hp : skipTrigramDelims content pos < content.length) :
    pos ≤ skipTrigramDelims content pos ∧
      skipTrigramDelims content pos < readTrigramEnd content (skipTrigramDelims content pos) ∧
      readTrigramEnd content (skipTrigramDelims content pos) ≤ content.length := by
  refine ⟨advanceWhile_le _ _ _, ?_, advanceWhile_le_length _ _ _ (Nat.le_of_lt hp)⟩
  apply lt_advanceWhile _ _ _ hp
  have := advanceWhile_stop content (fun b => !(is_trigram_token_char b)) pos hp
  simpa [skipTrigramDelims] using this

/-- `TrigramIterator::read_next_token`: skip delimiters, read and
lowercase the next token; loop until a token of length ≥
`MIN_TRIGRAM_TOKEN_LENGTH` is found or the input ends.  Returns the
lowercased buffer and the new cursor position. -/
def readNextToken (content : List Nat) (pos : Nat) : Option (List Nat × Nat) :=
  if skipTrigramDelims content pos < content.length then
    if MIN_TRIGRAM_TOKEN_LENGTH ≤
        readTrigramEnd content (skipTrigramDelims content pos) -
          skipTrigramDelims content pos then
      some (((content.drop (skipTrigramDelims content pos)).take
               (readTrigramEnd content (skipTrigramDelims content pos) -
                 skipTrigramDelims content pos)).map to_lowercase,
            readTrigramEnd content (skipTrigramDelims content pos))
    else readNextToken content (readTrigramEnd content (skipTrigramDelims content pos))
  else none
termination_by content.length - pos
decreasing_by
  rename_i hp _
  have := skipTrigramDelims_progress content pos hp
  omega

theorem readNextToken_lt (content : List Nat) (pos : Nat) (buf : List Nat) (p2 : Nat)
    (h : readNextToken content pos = some (buf, p2)) :
    pos < p2 ∧ p2 ≤ content.length ∧ buf.length ≤ p2 - pos := by
  rw [readNextToken] at h
  split at h
  · next hp =>
    have hprog := skipTrigramDelims_progress content pos hp
    split at h
    · cases h
      refine ⟨by omega, hprog.2.2, ?_⟩
      simp only [List.length_map, List.length_take, List.length_drop]
      omega
    · have ih := readNextToken_lt content _ buf p2 h
      exact ⟨by omega, ih.2.1, by omega⟩
  · exact absurd h (by simp)
termination_by content.length - pos
decreasing_by
  rename_i hp _
  have := skipTrigramDelims_progress content pos hp
  omega

/-- Guarded unfolding of `readNextToken`: end of input. -/
theorem readNextToken_of_end (content : List Nat) (pos : Nat)
    (h : ¬ skipTrigramDelims content pos < content.length) :
    readNextToken content pos = none := by
  rw [readNextToken, if_neg h]

/-- Guarded unfolding of `readNextToken`: a long-enough token is read. -/
theorem readNextToken_of_some (content : List Nat) (pos : Nat)
    (h1 : skipTrigramDelims content pos < content.length)
    (h2 : MIN_TRIGRAM_TOKEN_LENGTH ≤
      readTrigramEnd content (skipTrigramDelims content pos) - skipTrigramDelims content pos) :
    readNextToken content pos =
      some (((content.drop (skipTrigramDelims content pos)).take
               (readTrigramEnd content (skipTrigramDelims content pos) -
                 skipTrigramDelims content pos)).map to_lowercase,
            readTrigramEnd content (skipTrigramDelims content pos)) := by
  rw [readNextToken, if_pos h1, if_pos h2]

/-- Guarded unfolding of `readNextToken`: a too-short token is skipped. -/
theorem readNextToken_of_short (content : List Nat) (pos : Nat)
    (h1 : skipTrigramDelims content pos < content.length)
    (h2 : ¬ MIN_TRIGRAM_TOKEN_LENGTH ≤
      readTrigramEnd content (skipTrigramDelims content pos) - skipTrigramDelims content pos) :
    readNextToken content pos =
      readNextToken content (readTrigramEnd content (skipTrigramDelims content pos)) := by
  rw [readNextToken, if_pos h1, if_neg h2]

/-- `TrigramIterator::next`: emit the next window of the current token,
or read the next token and emit its first window; loop past tokens too
short to yield a window. -/
def trigramNext (content : List Nat) (s : TrigramState) : Option (Nat × TrigramState) :=
  match nextTrigramFromToken s with
  | some r => some r
  | none =>
    match h : readNextToken content s.position with
    | none => none
    | some bp =>
      match nextTrigramFromToken ⟨bp.2, bp.1, 0⟩ with
      | some r => some r
      | none => trigramNext content ⟨bp.2, bp.1, 0⟩
termination_by content.length - s.position
decreasing_by
  have := readNextToken_lt content s.position bp.1 bp.2 (by rw [h])
  omega

/-- Guarded unfolding of `trigramNext`: another window of the current token. -/
theorem trigramNext_of_window (content : List Nat) (s : TrigramState) (r : Nat × TrigramState)
    (h : nextTrigramFromToken s = some r) : trigramNext content s = some r := by
  rw [trigramNext.eq_def, h]

/-- Guarded unfolding of `trigramNext`: input exhausted. -/
theorem trigramNext_of_done (content : List Nat) (s : TrigramState)
    (h1 : nextTrigramFromToken s = none)
    (h2 : readNextToken content s.position = none) : trigramNext content s = none := by
  rw [trigramNext.eq_def, h1]
  split
  · next r heq => cases heq
  · split
    · rfl
    · next bp heq => rw [h2] at heq; cases heq

/-- Guarded unfolding of `trigramNext`: a fresh token is read and its
first window emitted. -/
theorem trigramNext_of_newtok (content : List Nat) (s : TrigramState)
    (bp : List Nat × Nat) (r : Nat × TrigramState)
    (h1 : nextTrigramFromToken s = none)
    (h2 : readNextToken content s.position = some bp)
    (h3 : nextTrigramFromToken ⟨bp.2, bp.1, 0⟩ = some r) :
    trigramNext content s = some r := by
  rw [trigramNext.eq_def, h1]
  split
  · next r2 heq => cases heq
  · split
    · next heq => rw [h2] at heq; cases heq
    · next bp2 heq =>
      rw [h2] at heq
      cases heq
      rw [h3]

/-- Termination measure for `TrigramIterator`: bytes left to scan plus
windows left in the current token buffer. -/
def trigramMeasure (content : List Nat) (s : TrigramState) : Nat :=
  (content.length - s.position) + (s.token_buf.length - s.token_pos)

theorem trigramNext_measure_lt (content : List Nat) (s : TrigramState) (t : Nat)
    (s2 : TrigramState) (h : trigramNext content s = some (t, s2)) :
    trigramMeasure content s2 < trigramMeasure content s := by
  unfold trigramNext at h
  split at h
  · next r hr =>
    unfold nextTrigramFromToken at hr
    split at hr
    · next hfit =>
      cases hr
      cases h
      simp only [trigramMeasure]
      omega
    · exact absurd hr (by simp)
  · next hr =>
    split at h
    · exact absurd h (by simp)
    · next bp hread =>
      have hb := readNextToken_lt content s.position bp.1 bp.2 (by rw [hread])
      split at h
      · next r2 hr2 =>
        unfold nextTrigramFromToken at hr2
        split at hr2
        · next hfit =>
          cases hr2
          cases h
          simp only [trigramMeasure]
          omega
        · exact absurd hr2 (by simp)
      · next hr2 =>
        have ih := trigramNext_measure_lt content ⟨bp.2, bp.1, 0⟩ t s2 h
        simp only [trigramMeasure] at ih ⊢
        omega
termination_by content.length - s.position
decreasing_by
  omega

/-- Exhaust `TrigramIterator`, collecting the packed trigrams. -/
def trigramRun (content : List Nat) (s : TrigramState) : List Nat :=
  match h : trigramNext content s with
  | none => []
  | some ts => ts.1 :: trigramRun content ts.2
termination_by trigramMeasure content s
decreasing_by
  exact trigramNext_measure_lt content s ts.1 ts.2 (by rw [h])

theorem trigramRun_length_le (content : List Nat) (s : TrigramState) :
    (trigramRun content s).length ≤ trigramMeasure content s := by
  rw [trigramRun]
  split
  · simp
  · next ts h =>
    have h1 := trigramNext_measure_lt content s ts.1 ts.2 (by rw [h])
    have h2 := trigramRun_length_le content ts.2
    simp only [List.length_cons]
    omega
termination_by trigramMeasure content s
decreasing_by
  rename_i ts2 hx1 hx2 heq
  exact trigramNext_measure_lt content s ts2.1 ts2.2 (by rw [heq])

/-- Guarded unfolding of `trigramRun`: iterator exhausted. -/
theorem trigramRun_of_none (content : List Nat) (s : TrigramState)
    (h : trigramNext content s = none) : trigramRun content s = [] := by
  rw [trigramRun.eq_def]
  split
  · rfl
  · next ts heq => rw [h] at heq; cases heq

/-- Guarded unfolding of `trigramRun`: one more trigram. -/
theorem trigramRun_of_some (content : List Nat) (s : TrigramState) (ts : Nat × TrigramState)
    (h : trigramNext content s = some ts) :
    trigramRun content s = ts.1 :: trigramRun content ts.2 := by
  rw [trigramRun.eq_def]
  split
  · next heq => rw [h] at heq; cases heq
  · next ts2 heq =>
    rw [h] at heq
    cases heq
    rfl

/-- `extract_trigrams` from src/trigram.rs: all packed trigrams of the
content, in emission order (fresh iterator state). -/
def extract_trigrams (content : List Nat) : List Nat :=
  trigramRun content ⟨0, [], 0⟩

/-- `extract_query_trigrams` from src/trigram.rs. -/
def extract_query_trigrams (query : List Nat) : List Nat :=
  extract_trigrams query


/-! ## Bitmap model (`roaring::RoaringBitmap`)

A posting bitmap is modelled as a `List Nat` of file-ids kept in strictly
ascending order by `bitmapInsert`; iteration in ascending order is then
the list itself, `len()` is `List.length`, `&=` is `List.filter`
membership and `|=` folds `bitmapInsert`. -/

/-- `RoaringBitmap::insert`: ordered insertion without duplicates. -/
def bitmapInsert (b : List Nat) (x : Nat) : List Nat :=
  match b with
  | [] => [x]
  | y :: rest =>
    if x < y then x :: y :: rest
    else if x = y then y :: rest
    else y :: bitmapInsert rest x

/-- `RoaringBitmap &= other`: keep the elements also present in `other`. -/
def bitmapAnd (a b : List Nat) : List Nat :=
  a.filter (fun x => b.contains x)

/-- `RoaringBitmap |= other`: insert every element of `other`. -/
def bitmapOr (a b : List Nat) : List Nat :=
  b.foldl bitmapInsert a

/-! ## Index data model (src/index.rs) -/

/-- `FORMAT_VERSION` from src/index.rs. -/
def FORMAT_VERSION : Nat := 3

/-- `IndexHeader` from src/index.rs: format version, 16-byte per-run id,
creation timestamp. -/
structure IndexHeader where
  version : Nat
  index_id : List Nat
  created_at : Nat
deriving DecidableEq

/-- The embedding of `std::path::Path`: an absolute-path flag plus the
list of normal components.  `parent` drops the last component (absent
when there are none, as for `/` or the empty path), `file_name` is the
last component, `join` appends one component (a no-op for the empty
string, as pushing an empty path is). -/
structure FsPath where
  absolute : Bool
  comps : List String
deriving DecidableEq

/-- `Path::parent`. -/
def FsPath.parent (p : FsPath) : Option FsPath :=
  match p.comps with
  | [] => none
  | _ => some ⟨p.absolute, p.comps.dropLast⟩

/-- `Path::file_name` (for paths made of normal components). -/
def FsPath.file_name (p : FsPath) : Option String :=
  p.comps.getLast?

/-- `Path::join` with a single-component (or empty) file name. -/
def FsPath.join (p : FsPath) (f : String) : FsPath :=
  if f = "" then p else ⟨p.absolute, p.comps ++ [f]⟩

/-- The empty path (`Path::new("")`). -/
def FsPath.emptyPath : FsPath := ⟨false, []⟩

instance : Inhabited FsPath := ⟨FsPath.emptyPath⟩

/-- Lookup in the `dir_lookup` map (`FxHashMap<PathBuf, u32>::get`). -/
def lookupDir (m : List (FsPath × Nat)) (key : FsPath) : Option Nat :=
  match m with
  | [] => none
  | (d, i) :: rest => if d = key then some i else lookupDir rest key

/-- `PathIndex` from src/index.rs: header, root, deduplicated directory
table, `(dir_id, filename)` file table, and the transient directory
lookup map. -/
structure PathIndex where
  header : IndexHeader
  root_path : FsPath
  directories : List FsPath
  files : List (Nat × String)
  dir_lookup : List (FsPath × Nat)
deriving DecidableEq

/-- `PathIndex::new`. -/
def PathIndex.new (header : IndexHeader) (root_path : FsPath) : PathIndex :=
  ⟨header, root_path, [], [], []⟩

/-- `PathIndex::register_file`: split into `(dir, filename)`, deduplicate
the directory, append the file entry, return the new file id (paired here
with the updated index). -/
def PathIndex.register_file (idx : PathIndex) (path : FsPath) : Nat × PathIndex :=
  match lookupDir idx.dir_lookup ((path.parent).getD FsPath.emptyPath) with
  | some dir_id =>
    (idx.files.length,
     { idx with files := idx.files ++ [(dir_id, (path.file_name).getD "")] })
  | none =>
    (idx.files.length,
     { idx with
        directories := idx.directories ++ [(path.parent).getD FsPath.emptyPath],
        dir_lookup :=
          idx.dir_lookup ++ [((path.parent).getD FsPath.emptyPath, idx.directories.length)],
        files := idx.files ++ [(idx.directories.length, (path.file_name).getD "")] })

/-- `PathIndex::get_file_path`: reconstruct `directories[dir_id] / filename`. -/
def PathIndex.get_file_path (idx : PathIndex) (file_id : Nat) : Option FsPath :=
  match idx.files.get? file_id with
  | none => none
  | some (dir_id, filename) =>
    match idx.directories.get? dir_id with
    | none => none
    | some dir => some (dir.join filename)

/-- `PathIndex::file_count`. -/
def PathIndex.file_count (idx : PathIndex) : Nat := idx.files.length

/-- `PathIndex::iter_filenames`: `(file_id, filename)` pairs in id order. -/
def PathIndex.iter_filenames (idx : PathIndex) : List (Nat × String) :=
  idx.files.enum.map (fun e => (e.1, e.2.2))

/-- `ExactTokenIndex` from src/index.rs: header plus token-hash → bitmap
map (also used for the case-insensitive variant). -/
structure ExactTokenIndex (κ : Type) where
  header : IndexHeader
  token_map : List (κ × List Nat)

/-- Lookup in a posting map (`FxHashMap::get`). -/
def lookupKey {κ : Type} [DecidableEq κ] (m : List (κ × List Nat)) (key : κ) :
    Option (List Nat) :=
  match m with
  | [] => none
  | (k, b) :: rest => if k = key then some b else lookupKey rest key

/-- `ExactTokenIndex::get_bitmap`. -/
def ExactTokenIndex.get_bitmap {κ : Type} [DecidableEq κ] (idx : ExactTokenIndex κ)
    (token_hash : κ) : Option (List Nat) :=
  lookupKey idx.token_map token_hash

/-- `TrigramIndex` from src/index.rs: header plus trigram → bitmap map. -/
structure TrigramIndex where
  header : IndexHeader
  trigram_map : List (Nat × List Nat)

/-- `TrigramIndex::get_bitmap`. -/
def TrigramIndex.get_bitmap (idx : TrigramIndex) (trigram : Nat) : Option (List Nat) :=
  lookupKey idx.trigram_map trigram

/-- `IndexMetadata` from src/index.rs (legacy single-file format). -/
structure IndexMetadata where
  version : Nat
  created_at : Nat
  root_path : FsPath
  file_count : Nat
  token_count : Nat

/-- Legacy `TokenIndex` from src/index.rs: combined token map and path
tables. -/
structure TokenIndex (κ : Type) where
  token_map : List (κ × List Nat)
  directories : List FsPath
  files : List (Nat × String)
  dir_lookup : List (FsPath × Nat)
  metadata : IndexMetadata

/-- `TokenIndex::get_bitmap`. -/
def TokenIndex.get_bitmap {κ : Type} [DecidableEq κ] (idx : TokenIndex κ) (token_hash : κ) :
    Option (List Nat) :=
  lookupKey idx.token_map token_hash

/-- `TokenIndex::get_file_path`: same reconstruction as `PathIndex`. -/
def TokenIndex.get_file_path {κ : Type} (idx : TokenIndex κ) (file_id : Nat) : Option FsPath :=
  match idx.files.get? file_id with
  | none => none
  | some (dir_id, filename) =>
    match idx.directories.get? dir_id with
    | none => none
    | some dir => some (dir.join filename)

/-- `TokenIndex::file_count`. -/
def TokenIndex.file_count {κ : Type} (idx : TokenIndex κ) : Nat := idx.files.length

/-- `TokenIndex::iter_filenames`. -/
def TokenIndex.iter_filenames {κ : Type} (idx : TokenIndex κ) : List (Nat × String) :=
  idx.files.enum.map (fun e => (e.1, e.2.2))

/-! ## Errors (src/error.rs) -/

/-- `TokenizerError` from src/error.rs. -/
inductive TokenizerError where
  | Io (msg : String)
  | Serialization (msg : String)
  | InvalidIndexFormat (msg : String)
  | WalkDirError (msg : String)
  | IndexNotFound (msg : String)
  | InvalidPattern (msg : String)
  | IndexMismatch (msg : String)
  | MissingQueryMode
deriving DecidableEq

/-- `validate_index_match` from src/persistence.rs: `Ok` exactly when the
two headers carry byte-identical `index_id`s. -/
def validate_index_match (header1 header2 : IndexHeader) :
    Except TokenizerError Unit :=
  if header1.index_id ≠ header2.index_id then
    .error (.IndexMismatch "Index files were created from different index runs")
  else .ok ()



/-! ## Glob engine (model of the external `globset` crate)

src/glob.rs and src/query.rs compile shell-style patterns with
`globset::Glob`.  The fragment of the pattern language the repository
exercises is modelled here: literals, `*`, `?`, and `[...]` character
classes (with `!` negation); an unclosed `[` fails to compile, as in
`globset`.  `GlobBuilder::case_insensitive(true)` is modelled by
lowercasing the pattern at compile time and the candidate name at match
time. -/

/-- One compiled glob pattern element. -/
inductive GlobToken where
  | lit (c : Char)
  | star
  | qmark
  | cls (neg : Bool) (chars : List Char)
deriving DecidableEq

/-- Parse a glob pattern; `none` models a `globset` compile error
(unclosed character class).  Structural recursion on a fuel argument that
the wrapper sets to the pattern length; every step consumes at least one
character, so the fuel never runs out. -/
def parseGlobFuel : Nat → List Char → Option (List GlobToken)
  | _, [] => some []
  | 0, _ :: _ => none
  | fuel + 1, c :: rest =>
    if c = '*' then (parseGlobFuel fuel rest).map (GlobToken.star :: ·)
    else if c = '?' then (parseGlobFuel fuel rest).map (GlobToken.qmark :: ·)
    else if c = '[' then
      match rest with
      | '!' :: body =>
        match body.drop ((body.takeWhile (fun d => d ≠ ']')).length) with
        | ']' :: rest2 =>
          (parseGlobFuel fuel rest2).map
            (GlobToken.cls true (body.takeWhile (fun d => d ≠ ']')) :: ·)
        | _ => none
      | body =>
        match body.drop ((body.takeWhile (fun d => d ≠ ']')).length) with
        | ']' :: rest2 =>
          (parseGlobFuel fuel rest2).map
            (GlobToken.cls false (body.takeWhile (fun d => d ≠ ']')) :: ·)
        | _ => none
    else (parseGlobFuel fuel rest).map (GlobToken.lit c :: ·)

/-- Parse a complete glob pattern. -/
def parseGlob (cs : List Char) : Option (List GlobToken) :=
  parseGlobFuel cs.length cs

/-- Match one non-`*` glob token against one character. -/
def matchTokenChar (t : GlobToken) (c : Char) : Bool :=
  match t with
  | .lit a => a = c
  | .qmark => true
  | .cls neg chars => if neg then !(chars.contains c) else chars.contains c
  | .star => false

/-- Match a compiled glob against a name, Unix-glob style: `*` matches
any (possibly empty) run of characters.  Fuel-structural with fuel bound
`ps.length + cs.length` set by the wrapper; every step shrinks that sum. -/
def globMatchFuel : Nat → List GlobToken → List Char → Bool
  | _, [], [] => true
  | _, [], _ :: _ => false
  | 0, _ :: _, _ => false
  | fuel + 1, .star :: ps, [] => globMatchFuel fuel ps []
  | fuel + 1, .star :: ps, c :: cs =>
    globMatchFuel fuel ps (c :: cs) || globMatchFuel fuel (.star :: ps) cs
  | _ + 1, _ :: _, [] => false
  | fuel + 1, t :: ps, c :: cs => matchTokenChar t c && globMatchFuel fuel ps cs

/-- Match a compiled glob against a name. -/
def globMatch (ps : List GlobToken) (cs : List Char) : Bool :=
  globMatchFuel (ps.length + cs.length) ps cs

/-- Lowercase a glob token (the `case_insensitive(true)` compile option). -/
def GlobToken.lower : GlobToken → GlobToken
  | .lit c => .lit c.toLower
  | .star => .star
  | .qmark => .qmark
  | .cls neg chars => .cls neg (chars.map Char.toLower)

/-- `globset::Glob::new` (case-sensitive compile), as used by
`glob_files`. -/
def globNew (pattern : String) : Option (List GlobToken) :=
  parseGlob pattern.toList

/-- `GlobBuilder::new(pattern).case_insensitive(true).build()`, as used
by the query planner's `resolve_file_ids`. -/
def compileGlobCI (pattern : String) : Option (List GlobToken) :=
  (parseGlob pattern.toList).map (List.map GlobToken.lower)

/-- `GlobSet::is_match` for a set of case-insensitively compiled globs:
at least one glob matches the lowercased name. -/
def globSetMatch (matcher : List (List GlobToken)) (filename : String) : Bool :=
  matcher.any (fun g => globMatch g (filename.toList.map Char.toLower))

/-! ## Query planner (src/query.rs) -/

/-- `QueryResult` from src/query.rs. -/
structure QueryResult where
  files : List FsPath
  query_token_count : Nat
  matched_token_count : Nat
deriving DecidableEq

/-- `QueryOptions` from src/query.rs. -/
structure QueryOptions where
  limit : Option Nat
  match_all : Bool
  path_contains : Option String
  glob_patterns : Option (List String)
  exclude : Option String

/-- `intersect_bitmaps`'s fold: `result &= bitmap` with early exit once
the running result is empty. -/
def intersectFold (result : List Nat) : List (List Nat) → List Nat
  | [] => result
  | b :: rest =>
    if (bitmapAnd result b).isEmpty then bitmapAnd result b
    else intersectFold (bitmapAnd result b) rest

/-- `intersect_bitmaps` from src/query.rs: sort by cardinality ascending,
then fold intersections from the smallest with early exit. -/
def intersect_bitmaps (bitmaps : List (List Nat)) : List Nat :=
  if bitmaps.isEmpty then []
  else
    match bitmaps.mergeSort (fun a b => a.length ≤ b.length) with
    | [] => []
    | b0 :: rest => intersectFold b0 rest

/-- `union_bitmaps` from src/query.rs. -/
def union_bitmaps (bitmaps : List (List Nat)) : List Nat :=
  bitmaps.foldl bitmapOr []

/-- `Path::to_string_lossy` for the path model. -/
def pathToString (p : FsPath) : String :=
  (if p.absolute then "/" else "") ++ String.intercalate "/" p.comps

/-- `str::to_lowercase` (ASCII; the indexed content is byte-oriented). -/
def strLower (s : String) : List Char :=
  s.toList.map Char.toLower

/-- `str::contains` on lowercased characters: `needle` occurs as a
contiguous subsequence of `haystack`. -/
def containsSub (needle haystack : List Char) : Bool :=
  (List.range (haystack.length + 1)).any (fun i => needle.isPrefixOf (haystack.drop i))

/-- The per-candidate filter chain of `resolve_file_ids`
(src/query.rs lines 292-324): path-contains, glob (on the basename),
exclude, in this order; `none` models the `return None` paths. -/
def filterCandidate (options : QueryOptions) (glob_matcher : Option (List (List GlobToken)))
    (path : FsPath) : Option FsPath :=
  if (match options.path_contains with
      | some c => containsSub (strLower c) (strLower (pathToString path))
      | none => true) then
    if (match glob_matcher with
        | some matcher =>
          match path.file_name with
          | some filename => globSetMatch matcher filename
          | none => false
        | none => true) then
      if (match options.exclude with
          | some x => !(containsSub (strLower x) (strLower (pathToString path)))
          | none => true) then
        some path
      else none
    else none
  else none

/-- `resolve_file_ids` from src/query.rs: compile the glob patterns
(silently dropping the ones that fail to compile), filter each candidate
file-id's path, and truncate at `limit` when set. -/
def resolve_file_ids (path_index : PathIndex) (bitmap : List Nat)
    (options : QueryOptions) : List FsPath :=
  match options.limit with
  | some limit =>
    (bitmap.filterMap (fun id =>
      match path_index.get_file_path id with
      | none => none
      | some path =>
        filterCandidate options
          (options.glob_patterns.map (fun patterns => patterns.filterMap compileGlobCI))
          path)).take limit
  | none =>
    bitmap.filterMap (fun id =>
      match path_index.get_file_path id with
      | none => none
      | some path =>
        filterCandidate options
          (options.glob_patterns.map (fun patterns => patterns.filterMap compileGlobCI))
          path)

/-- `query_with_options` from src/query.rs (legacy combined index):
tokenize, look up bitmaps, intersect or union, then resolve ids to paths
(with `take limit` before the id→path lookup, as in the source). -/
def query_with_options {κ : Type} [DecidableEq κ] (index : TokenIndex κ)
    (hashToken : List Nat → κ) (query_str : List Nat) (options : QueryOptions) :
    QueryResult :=
  if (tokenize_query hashToken query_str).isEmpty then
    ⟨[], 0, 0⟩
  else
    if ((tokenize_query hashToken query_str).filterMap index.get_bitmap).isEmpty then
      ⟨[], (tokenize_query hashToken query_str).length, 0⟩
    else
      ⟨(match options.limit with
        | some limit =>
          ((if options.match_all then
              intersect_bitmaps ((tokenize_query hashToken query_str).filterMap index.get_bitmap)
            else
              union_bitmaps
                ((tokenize_query hashToken query_str).filterMap index.get_bitmap)).take
            limit).filterMap index.get_file_path
        | none =>
          (if options.match_all then
              intersect_bitmaps ((tokenize_query hashToken query_str).filterMap index.get_bitmap)
            else
              union_bitmaps
                ((tokenize_query hashToken query_str).filterMap index.get_bitmap)).filterMap
            index.get_file_path),
       (tokenize_query hashToken query_str).length,
       ((tokenize_query hashToken query_str).filterMap index.get_bitmap).length⟩

/-- `query_exact` from src/query.rs: exact-mode tokenization, bitmap
lookups in the exact index, AND/OR composition, then `resolve_file_ids`. -/
def query_exact {κ : Type} [DecidableEq κ] (hashToken : List Nat → κ)
    (path_index : PathIndex) (exact_index : ExactTokenIndex κ) (query_str : List Nat)
    (options : QueryOptions) : QueryResult :=
  if (tokenize_query_exact hashToken query_str).isEmpty then
    ⟨[], 0, 0⟩
  else
    if ((tokenize_query_exact hashToken query_str).filterMap exact_index.get_bitmap).isEmpty then
      ⟨[], (tokenize_query_exact hashToken query_str).length, 0⟩
    else
      ⟨resolve_file_ids path_index
        (if options.match_all then
          intersect_bitmaps
            ((tokenize_query_exact hashToken query_str).filterMap exact_index.get_bitmap)
        else
          union_bitmaps
            ((tokenize_query_exact hashToken query_str).filterMap exact_index.get_bitmap))
        options,
       (tokenize_query_exact hashToken query_str).length,
       ((tokenize_query_exact hashToken query_str).filterMap exact_index.get_bitmap).length⟩

/-- `query_fuzzy` from src/query.rs: trigram extraction, bitmap lookups
in the trigram index, AND/OR composition, then `resolve_file_ids`. -/
def query_fuzzy (path_index : PathIndex) (trigram_index : TrigramIndex)
    (query_str : List Nat) (options : QueryOptions) : QueryResult :=
  if (extract_query_trigrams query_str).isEmpty then
    ⟨[], 0, 0⟩
  else
    if ((extract_query_trigrams query_str).filterMap trigram_index.get_bitmap).isEmpty then
      ⟨[], (extract_query_trigrams query_str).length, 0⟩
    else
      ⟨resolve_file_ids path_index
        (if options.match_all then
          intersect_bitmaps
            ((extract_query_trigrams query_str).filterMap trigram_index.get_bitmap)
        else
          union_bitmaps
            ((extract_query_trigrams query_str).filterMap trigram_index.get_bitmap))
        options,
       (extract_query_trigrams query_str).length,
       ((extract_query_trigrams query_str).filterMap trigram_index.get_bitmap).length⟩

/-! ## Filename glob search (src/glob.rs) -/

/-- `usize::MAX`, the default limit in `glob_files`. -/
def USIZE_MAX : Nat := 2 ^ 64 - 1

/-- `GlobOptions` from src/glob.rs. -/
structure GlobOptions where
  limit : Option Nat

/-- `GlobResult` from src/glob.rs. -/
structure GlobResult where
  files : List FsPath
  pattern : String
  files_scanned : Nat
deriving DecidableEq

/-- `glob_files` from src/glob.rs: compile the pattern case-sensitively
(an invalid pattern is an `InvalidPattern` error), then keep the files
whose basename matches, up to `limit`. -/
def glob_files {κ : Type} (index : TokenIndex κ) (pattern : String)
    (options : GlobOptions) : Except TokenizerError GlobResult :=
  match globNew pattern with
  | none => .error (.InvalidPattern pattern)
  | some g =>
    .ok ⟨((index.iter_filenames.filter
            (fun e => globMatch g e.2.toList)).take
            (options.limit.getD USIZE_MAX)).map
          (fun e => (index.get_file_path e.1).getD FsPath.emptyPath),
         pattern, index.file_count⟩



/-! ## File-level extraction (src/tokenizer.rs, src/trigram.rs)

The file functions memory-map a file and inspect its bytes; the model
takes the file's content directly and captures the successful-read path
(`Ok(...)` in the source; I/O failures are out of scope of the byte-level
semantics).  The `FxHashSet` deduplication is modelled by `List.dedup`
(the set of elements is what matters; the source's iteration order over
the hash set is unspecified). -/

/-- `extract_exact_tokens_from_file` from src/tokenizer.rs: empty file →
empty; NUL byte within the first `min(8192, len)` bytes (binary file) →
empty; otherwise the deduplicated exact-mode token hashes of the whole
content. -/
def extract_exact_tokens_from_file {κ : Type} [DecidableEq κ] (hashToken : List Nat → κ)
    (content : List Nat) : List κ :=
  if content.length = 0 then []
  else if (content.take (min 8192 content.length)).contains 0 then []
  else (tokenize_exact hashToken content).dedup

/-- `extract_tokens_from_file` from src/tokenizer.rs (legacy word
tokenizer), same empty/binary handling. -/
def extract_tokens_from_file {κ : Type} [DecidableEq κ] (hashToken : List Nat → κ)
    (content : List Nat) : List κ :=
  if content.length = 0 then []
  else if (content.take (min 8192 content.length)).contains 0 then []
  else (tokenize hashToken content).dedup

/-- `extract_trigrams_from_file` from src/trigram.rs, same empty/binary
handling. -/
def extract_trigrams_from_file (content : List Nat) : List Nat :=
  if content.length = 0 then []
  else if (content.take (min 8192 content.length)).contains 0 then []
  else (extract_trigrams content).dedup

/-! ## Indexing pipeline (src/scanner.rs)

`scan_and_build_indexes` runs a walker thread, a sequential id-assigning
coordinator, parallel per-file workers and a merger.  The model below is
the deterministic sequential composition: the walker's output is the
input list of `(path, content)` pairs; the coordinator registers each
path in walker order; each worker's `process_single_file` is applied to
the file's content; `merge_results` folds the result records into the two
posting maps (per-bitmap content is insertion-order independent, so the
in-order merge represents every worker interleaving). -/

/-- `FileProcessingResult` from src/scanner.rs: the record a worker sends
on the result channel.  The source's fields are exactly
`file_id`, `exact_tokens`, `trigrams` — there is no `exact_lower_tokens`
field. -/
structure FileProcessingResult (κ : Type) where
  file_id : Nat
  exact_tokens : List κ
  trigrams : List Nat
deriving DecidableEq

/-- `process_single_file` from src/scanner.rs. -/
def process_single_file {κ : Type} [DecidableEq κ] (hashToken : List Nat → κ)
    (file_id : Nat) (content : List Nat) : FileProcessingResult κ :=
  ⟨file_id, extract_exact_tokens_from_file hashToken content,
   extract_trigrams_from_file content⟩

/-- `exact_map.entry(token_hash).or_insert_with(RoaringBitmap::new)
.insert(file_id)`: posting-map insertion. -/
def addPosting {κ : Type} [DecidableEq κ] (m : List (κ × List Nat)) (key : κ)
    (file_id : Nat) : List (κ × List Nat) :=
  match m with
  | [] => [(key, bitmapInsert [] file_id)]
  | (k, b) :: rest =>
    if k = key then (k, bitmapInsert b file_id) :: rest
    else (k, b) :: addPosting rest key file_id

/-- `merge_results` from src/scanner.rs: fold every result record's
tokens and trigrams into the two posting maps, then wrap them with the
shared header. -/
def merge_results {κ : Type} [DecidableEq κ] (results : List (FileProcessingResult κ))
    (header : IndexHeader) : ExactTokenIndex κ × TrigramIndex :=
  (⟨header,
    results.foldl
      (fun m r => r.exact_tokens.foldl (fun m2 t => addPosting m2 t r.file_id) m) []⟩,
   ⟨header,
    results.foldl
      (fun m r => r.trigrams.foldl (fun m2 t => addPosting m2 t r.file_id) m) []⟩)

/-- The coordinator loop of `scan_and_build_indexes`: for each walked
file, sequentially `register_file` it (dense ids in walker order) and
collect the worker's result record for its content. -/
def coordinate {κ : Type} [DecidableEq κ] (hashToken : List Nat → κ)
    (header : IndexHeader) (root : FsPath) (walked : List (FsPath × List Nat)) :
    PathIndex × List (FileProcessingResult κ) :=
  walked.foldl
    (fun acc pc =>
      ((acc.1.register_file pc.1).2,
       acc.2 ++ [process_single_file hashToken (acc.1.register_file pc.1).1 pc.2]))
    (PathIndex.new header root, [])

/-- `scan_and_build_indexes` from src/scanner.rs: one shared header; the
coordinator registers each walked file in order and a worker processes
its content; the merged posting maps and the path index are returned.
The source's return type is the triple
`(PathIndex, ExactTokenIndex, TrigramIndex)` — no exact-lower index. -/
def scan_and_build_indexes {κ : Type} [DecidableEq κ] (hashToken : List Nat → κ)
    (header : IndexHeader) (root : FsPath) (walked : List (FsPath × List Nat)) :
    PathIndex × ExactTokenIndex κ × TrigramIndex :=
  ((coordinate hashToken header root walked).1,
   merge_results (coordinate hashToken header root walked).2 header)


/-! ## Supporting lemmas for the claims -/

theorem mem_bitmapAnd (a b : List Nat) (x : Nat) :
    x ∈ bitmapAnd a b ↔ x ∈ a ∧ x ∈ b := by
  simp [bitmapAnd, List.mem_filter]

theorem mem_intersectFold (l : List (List Nat)) (acc : List Nat) (x : Nat) :
    x ∈ intersectFold acc l ↔ x ∈ acc ∧ ∀ b ∈ l, x ∈ b := by
  induction l generalizing acc with
  | nil => simp [intersectFold]
  | cons b rest ih =>
    unfold intersectFold
    split
    · next hemp =>
      rw [List.isEmpty_iff] at hemp
      rw [hemp]
      simp only [List.not_mem_nil, false_iff, List.mem_cons]
      intro hcon
      have : x ∈ bitmapAnd acc b := (mem_bitmapAnd acc b x).mpr ⟨hcon.1, hcon.2 b (Or.inl rfl)⟩
      rw [hemp] at this
      exact List.not_mem_nil x this
    · rw [ih, mem_bitmapAnd]
      constructor
      · rintro ⟨⟨hx, hb⟩, hrest⟩
        exact ⟨hx, fun c hc => (List.mem_cons.mp hc).elim (fun he => he ▸ hb)
          (fun hm => hrest c hm)⟩
      · rintro ⟨hx, hall⟩
        exact ⟨⟨hx, hall b (List.mem_cons_self b rest)⟩, fun c hc => hall c (List.mem_cons_of_mem b hc)⟩

theorem mem_intersect_bitmaps (l : List (List Nat)) (x : Nat) :
    x ∈ intersect_bitmaps l ↔ (l ≠ [] ∧ ∀ b ∈ l, x ∈ b) := by
  unfold intersect_bitmaps
  split
  · next hemp =>
    rw [List.isEmpty_iff] at hemp
    simp [hemp]
  · next hemp =>
    rw [List.isEmpty_iff] at hemp
    have hperm := List.mergeSort_perm l (fun a b => a.length ≤ b.length)
    split
    · next hsorted =>
      rw [hsorted] at hperm
      exact absurd hperm.symm.eq_nil hemp
    · next b0 rest hsorted =>
      rw [mem_intersectFold]
      constructor
      · rintro ⟨hb0, hrest⟩
        refine ⟨hemp, fun b hb => ?_⟩
        have hbmem : b ∈ b0 :: rest := by
          rw [← hsorted]
          exact hperm.mem_iff.mpr hb
        exact (List.mem_cons.mp hbmem).elim (fun he => he ▸ hb0) (fun hm => hrest b hm)
      · rintro ⟨_, hall⟩
        have hmem : ∀ b ∈ b0 :: rest, x ∈ b := by
          intro b hb
          exact hall b (hperm.mem_iff.mp (by rw [hsorted]; exact hb))
        exact ⟨hmem b0 (List.mem_cons_self b0 rest), fun b hb => hmem b (List.mem_cons_of_mem b0 hb)⟩

/-! ## The claims -/

/-- Claim C3: `validate_index_match(h1, h2)` returns `Ok` exactly when
`h1.index_id` equals `h2.index_id` byte-for-byte, returns the
`IndexMismatch` error (and no other error kind) whenever the two ids
differ, and no other header field (`version`, `created_at`) affects the
outcome. -/
theorem C3_validate_index_match_iff (h1 h2 : IndexHeader) :
    (validate_index_match h1 h2 = .ok () ↔ h1.index_id = h2.index_id) ∧
    (h1.index_id ≠ h2.index_id →
      validate_index_match h1 h2 =
        .error (.IndexMismatch "Index files were created from different index runs")) ∧
    (∀ v c v2 c2, validate_index_match ⟨v, h1.index_id, c⟩ ⟨v2, h2.index_id, c2⟩ =
      validate_index_match h1 h2) := by
  by_cases h : h1.index_id = h2.index_id <;>
    simp [validate_index_match, h]

/-- Witness for C3 at concrete headers: distinct ids (differing only in
the id) yield the `IndexMismatch` error, identical ids (with different
versions and timestamps) yield `Ok`. -/
theorem C3_validate_index_match_witness :
    validate_index_match ⟨3, [1, 2], 10⟩ ⟨5, [9, 9], 20⟩ =
      .error (.IndexMismatch "Index files were created from different index runs") ∧
    validate_index_match ⟨3, [1, 2], 10⟩ ⟨5, [1, 2], 20⟩ = .ok () :=
  ⟨(C3_validate_index_match_iff ⟨3, [1, 2], 10⟩ ⟨5, [9, 9], 20⟩).2.1 (by decide),
   (C3_validate_index_match_iff ⟨3, [1, 2], 10⟩ ⟨5, [1, 2], 20⟩).1.mpr (by decide)⟩

/-- Claim C5: `intersect_bitmaps` is permutation-invariant.  For every
non-empty list of bitmaps its result is exactly the set of ids belonging
to every bitmap (so the cardinality sort and the early-exit fold do not
change the computed intersection), and any permutation of the list
yields the same set of file-ids. -/
theorem C5_intersect_bitmaps_perm_invariant (l1 l2 : List (List Nat))
    (hne : l1 ≠ []) (hperm : l1.Perm l2) :
    (∀ x, x ∈ intersect_bitmaps l1 ↔ ∀ b ∈ l1, x ∈ b) ∧
    (intersect_bitmaps l1).toFinset = (intersect_bitmaps l2).toFinset := by
  constructor
  · intro x
    rw [mem_intersect_bitmaps]
    exact ⟨fun h => h.2, fun h => ⟨hne, h⟩⟩
  · apply Finset.ext
    intro x
    rw [List.mem_toFinset, List.mem_toFinset, mem_intersect_bitmaps, mem_intersect_bitmaps]
    constructor
    · rintro ⟨_, hall⟩
      refine ⟨fun h2 => hne ?_, fun b hb => hall b (hperm.mem_iff.mpr hb)⟩
      exact (h2 ▸ hperm).eq_nil
    · rintro ⟨_, hall⟩
      exact ⟨hne, fun b hb => hall b (hperm.mem_iff.mp hb)⟩

/-- Witness for C5: swapping two concrete bitmaps leaves the computed
set of file-ids unchanged. -/
theorem C5_intersect_bitmaps_witness :
    (intersect_bitmaps [[1, 2], [2, 3]]).toFinset =
      (intersect_bitmaps [[2, 3], [1, 2]]).toFinset :=
  (C5_intersect_bitmaps_perm_invariant [[1, 2], [2, 3]] [[2, 3], [1, 2]]
    (by decide) (List.Perm.swap [2, 3] [1, 2] [])).2



/-- Evaluation: the word tokenizer of the empty input yields nothing. -/
theorem tokenRun_nil : tokenRun [] 0 = [] := by
  have h : tokenNextTok [] 0 = none := by
    apply tokenNextTok_of_end
    simp [skipWordDelims, advanceWhile_done]
  exact tokenRun_of_none [] 0 h

/-- Evaluation: the exact tokenizer of the empty input yields nothing. -/
theorem exactRun_nil : exactRun [] 0 = [] := by
  have h : exactNextTok [] 0 = none := by
    apply exactNextTok_of_end
    simp [skipExactDelims, advanceWhile_done]
  exact exactRun_of_none [] 0 h

/-- Evaluation: the trigram extractor of the empty input yields nothing. -/
theorem extract_trigrams_nil : extract_trigrams [] = [] := by
  apply trigramRun_of_none
  apply trigramNext_of_done
  · simp [nextTrigramFromToken]
  · apply readNextToken_of_end
    simp [skipTrigramDelims, advanceWhile_done]

/-- Claim C6: whenever a query runs with `options.limit = some k` — via
`query_exact`, `query_fuzzy` or `query_with_options` — the returned
`files` list has length at most `k`. -/
theorem C6_limit_truncation {κ : Type} [DecidableEq κ] (hashToken : List Nat → κ)
    (path_index : PathIndex) (exact_index : ExactTokenIndex κ)
    (trigram_index : TrigramIndex) (index : TokenIndex κ) (q : List Nat)
    (options : QueryOptions) (k : Nat) (hlim : options.limit = some k) :
    (query_exact hashToken path_index exact_index q options).files.length ≤ k ∧
    (query_fuzzy path_index trigram_index q options).files.length ≤ k ∧
    (query_with_options index hashToken q options).files.length ≤ k := by
  have hres : ∀ bitmap, (resolve_file_ids path_index bitmap options).length ≤ k := by
    intro bitmap
    unfold resolve_file_ids
    rw [hlim]
    exact List.length_take_le _ _
  refine ⟨?_, ?_, ?_⟩
  · unfold query_exact
    split
    · simp
    · split
      · simp
      · exact hres _
  · unfold query_fuzzy
    split
    · simp
    · split
      · simp
      · exact hres _
  · unfold query_with_options
    split
    · simp
    · split
      · simp
      · rw [hlim]
        exact Nat.le_trans (List.length_filterMap_le _ _) (List.length_take_le _ _)

/-- Witness for C6 at a concrete limit of 2 on concrete (empty) indexes. -/
theorem C6_limit_truncation_witness :
    (query_exact (fun _ => (0 : Nat)) (PathIndex.new ⟨3, [1], 0⟩ ⟨true, ["r"]⟩)
        ⟨⟨3, [1], 0⟩, []⟩ [97, 98] ⟨some 2, true, none, none, none⟩).files.length ≤ 2 ∧
    (query_fuzzy (PathIndex.new ⟨3, [1], 0⟩ ⟨true, ["r"]⟩) ⟨⟨3, [1], 0⟩, []⟩
        [97, 98] ⟨some 2, true, none, none, none⟩).files.length ≤ 2 :=
  ⟨(C6_limit_truncation (fun _ => (0 : Nat)) (PathIndex.new ⟨3, [1], 0⟩ ⟨true, ["r"]⟩)
      ⟨⟨3, [1], 0⟩, []⟩ ⟨⟨3, [1], 0⟩, []⟩
      ⟨[], [], [], [], ⟨2, 0, ⟨true, ["r"]⟩, 0, 0⟩⟩ [97, 98]
      ⟨some 2, true, none, none, none⟩ 2 rfl).1,
   (C6_limit_truncation (fun _ => (0 : Nat)) (PathIndex.new ⟨3, [1], 0⟩ ⟨true, ["r"]⟩)
      ⟨⟨3, [1], 0⟩, []⟩ ⟨⟨3, [1], 0⟩, []⟩
      ⟨[], [], [], [], ⟨2, 0, ⟨true, ["r"]⟩, 0, 0⟩⟩ [97, 98]
      ⟨some 2, true, none, none, none⟩ 2 rfl).2.1⟩

/-- Claim C7: a query string from which the mode's scanner extracts no
keys yields the empty result with both counts zero, in all three query
functions (which are total: no input string makes them panic). -/
theorem C7_empty_query {κ : Type} [DecidableEq κ] (hashToken : List Nat → κ)
    (path_index : PathIndex) (exact_index : ExactTokenIndex κ)
    (trigram_index : TrigramIndex) (index : TokenIndex κ) (q : List Nat)
    (options : QueryOptions) :
    (tokenize_query_exact hashToken q = [] →
      query_exact hashToken path_index exact_index q options = ⟨[], 0, 0⟩) ∧
    (extract_query_trigrams q = [] →
      query_fuzzy path_index trigram_index q options = ⟨[], 0, 0⟩) ∧
    (tokenize_query hashToken q = [] →
      query_with_options index hashToken q options = ⟨[], 0, 0⟩) := by
  refine ⟨fun h => ?_, fun h => ?_, fun h => ?_⟩
  · unfold query_exact
    rw [if_pos (by rw [h]; rfl)]
  · unfold query_fuzzy
    rw [if_pos (by rw [h]; rfl)]
  · unfold query_with_options
    rw [if_pos (by rw [h]; rfl)]

/-- Witness for C7: the empty query string extracts no keys in any mode,
and the three query functions return the all-empty result on it. -/
theorem C7_empty_query_witness :
    query_exact (fun _ => (0 : Nat)) (PathIndex.new ⟨3, [1], 0⟩ ⟨true, ["r"]⟩)
        ⟨⟨3, [1], 0⟩, []⟩ [] ⟨none, true, none, none, none⟩ = ⟨[], 0, 0⟩ ∧
    query_fuzzy (PathIndex.new ⟨3, [1], 0⟩ ⟨true, ["r"]⟩) ⟨⟨3, [1], 0⟩, []⟩
        [] ⟨none, true, none, none, none⟩ = ⟨[], 0, 0⟩ := by
  have hx : tokenize_query_exact (fun _ => (0 : Nat)) [] = [] := by
    rw [tokenize_query_exact, tokenize_exact, exactRun_nil]
    rfl
  have ht : extract_query_trigrams [] = [] := by
    rw [extract_query_trigrams, extract_trigrams_nil]
  exact ⟨(C7_empty_query (fun _ => (0 : Nat)) (PathIndex.new ⟨3, [1], 0⟩ ⟨true, ["r"]⟩)
            ⟨⟨3, [1], 0⟩, []⟩ ⟨⟨3, [1], 0⟩, []⟩
            ⟨[], [], [], [], ⟨2, 0, ⟨true, ["r"]⟩, 0, 0⟩⟩ []
            ⟨none, true, none, none, none⟩).1 hx,
         (C7_empty_query (fun _ => (0 : Nat)) (PathIndex.new ⟨3, [1], 0⟩ ⟨true, ["r"]⟩)
            ⟨⟨3, [1], 0⟩, []⟩ ⟨⟨3, [1], 0⟩, []⟩
            ⟨[], [], [], [], ⟨2, 0, ⟨true, ["r"]⟩, 0, 0⟩⟩ []
            ⟨none, true, none, none, none⟩).2.1 ht⟩



theorem dedupToFinset {κ : Type} [DecidableEq κ] (l : List κ) :
    l.dedup.toFinset = l.toFinset := by
  apply Finset.ext
  intro x
  simp [List.mem_toFinset, List.mem_dedup]

/-- Claim C4: a file of length 0, or whose first `min(8192, len)` bytes
contain a NUL, yields the empty collection from both
`extract_exact_tokens_from_file` and `extract_trigrams_from_file` (no
error: the functions are total on the content); a file with no NUL in
that prefix is scanned in full by the corresponding tokenizer (the result
is exactly the deduplicated token set of the whole content). -/
theorem C4_binary_and_empty_files {κ : Type} [DecidableEq κ] (hashToken : List Nat → κ)
    (content : List Nat) :
    (content.length = 0 ∨ (content.take (min 8192 content.length)).contains 0 = true →
      extract_exact_tokens_from_file hashToken content = [] ∧
      extract_trigrams_from_file content = []) ∧
    ((content.take (min 8192 content.length)).contains 0 = false →
      (extract_exact_tokens_from_file hashToken content).toFinset =
        (tokenize_exact hashToken content).toFinset ∧
      (extract_trigrams_from_file content).toFinset =
        (extract_trigrams content).toFinset) := by
  constructor
  · intro h
    unfold extract_exact_tokens_from_file extract_trigrams_from_file
    rcases h with h | h
    · rw [if_pos h, if_pos h]
      exact ⟨rfl, rfl⟩
    · by_cases hlen : content.length = 0
      · rw [if_pos hlen, if_pos hlen]
        exact ⟨rfl, rfl⟩
      · rw [if_neg hlen, if_neg hlen, if_pos h, if_pos h]
        exact ⟨rfl, rfl⟩
  · intro h
    unfold extract_exact_tokens_from_file extract_trigrams_from_file
    by_cases hlen : content.length = 0
    · have hc : content = [] := List.length_eq_zero.mp hlen
      subst hc
      simp [tokenize_exact, exactRun_nil, extract_trigrams_nil]
    · rw [if_neg hlen, if_neg hlen, if_neg (by rw [h]; exact Bool.false_ne_true),
        if_neg (by rw [h]; exact Bool.false_ne_true)]
      exact ⟨dedupToFinset _, dedupToFinset _⟩

/-- Witness for C4: the one-NUL-byte file yields empty collections, and
a NUL-free file (`"AB"`) is scanned in full. -/
theorem C4_binary_and_empty_files_witness :
    (extract_exact_tokens_from_file (fun t => t) [0] = [] ∧
      extract_trigrams_from_file [0] = []) ∧
    (extract_exact_tokens_from_file (fun t => t) [65, 66]).toFinset =
      (tokenize_exact (fun t => t) [65, 66]).toFinset :=
  ⟨(C4_binary_and_empty_files (fun t => t) [0]).1 (Or.inr (by decide)),
   ((C4_binary_and_empty_files (fun t => t) [65, 66]).2 (by decide)).1⟩

/-- `dir_lookup` consistency: every entry of the transient lookup map
points at the directory-table slot holding its key.  `PathIndex.new`
establishes it and `register_file` preserves it (so every index reachable
through the source's api satisfies it). -/
def dirLookupConsistent (idx : PathIndex) : Prop :=
  ∀ pr ∈ idx.dir_lookup, idx.directories.get? pr.2 = some pr.1

instance (idx : PathIndex) : Decidable (dirLookupConsistent idx) :=
  List.decidableBAll _ idx.dir_lookup

theorem lookupDir_mem (m : List (FsPath × Nat)) (key : FsPath) (i : Nat)
    (h : lookupDir m key = some i) : (key, i) ∈ m := by
  induction m with
  | nil => cases h
  | cons hd tl ih =>
    rcases hd with ⟨d, j⟩
    unfold lookupDir at h
    split at h
    · next he =>
      cases h
      rw [← he]
      exact List.mem_cons_self _ _
    · exact List.mem_cons_of_mem _ (ih h)

theorem dirLookupConsistent_new (header : IndexHeader) (root : FsPath) :
    dirLookupConsistent (PathIndex.new header root) := by
  intro pr hpr
  cases hpr

theorem dirLookupConsistent_register (idx : PathIndex) (p : FsPath)
    (h : dirLookupConsistent idx) : dirLookupConsistent (idx.register_file p).2 := by
  unfold PathIndex.register_file
  split
  · next dir_id hlk =>
    intro pr hpr
    exact h pr hpr
  · next hlk =>
    intro pr hpr
    simp only at hpr
    rcases List.mem_append.mp hpr with hold | hnew
    · have := h pr hold
      have hlt : pr.2 < idx.directories.length := by
        by_contra hge
        rw [List.get?_eq_none.mpr (Nat.le_of_not_lt hge)] at this
        cases this
      simp only
      rw [List.get?_append hlt]
      exact this
    · simp only [List.mem_singleton] at hnew
      subst hnew
      simp only
      rw [List.get?_concat_length]

/-- Counterexample to C2 as stated: registering the root path `/` (which
has neither parent nor file name) and reading it back yields the empty
path, not `/`. -/
theorem C2_register_roundtrip_counterexample :
    ((PathIndex.new ⟨3, [1], 0⟩ ⟨true, ["r"]⟩).register_file ⟨true, []⟩).2.get_file_path
      ((PathIndex.new ⟨3, [1], 0⟩ ⟨true, ["r"]⟩).register_file ⟨true, []⟩).1 ≠
      some (⟨true, []⟩ : FsPath) := by decide

/-- Claim C2 (amended): for every path with a file name — a nonempty
final component, i.e. `file_name() = Some f`, `f ≠ ""` — registering it
in any index whose directory lookup is consistent (as `new` and
`register_file` maintain) and reading the returned id back yields exactly
the registered path; paths with no parent directory use the empty
directory.  (Paths with no file name, such as `/`, reconstruct as the
empty-directory join instead — see the counterexample.) -/
theorem C2_register_roundtrip (idx : PathIndex) (p : FsPath) (f : String)
    (hwf : dirLookupConsistent idx) (hf : p.file_name = some f) (hne : f ≠ "") :
    (idx.register_file p).2.get_file_path (idx.register_file p).1 = some p := by
  have hcomps : p.comps ≠ [] := by
    intro hc
    rw [FsPath.file_name, hc] at hf
    cases hf
  have hpar : p.parent = some ⟨p.absolute, p.comps.dropLast⟩ := by
    rw [FsPath.parent]
    cases hc : p.comps with
    | nil => exact absurd hc hcomps
    | cons a as => rfl
  have hgl : p.comps.getLast hcomps = f := by
    have h2 := List.getLast?_eq_getLast_of_ne_nil (l := p.comps) hcomps
    rw [FsPath.file_name] at hf
    rw [h2] at hf
    exact (Option.some.injEq _ _).mp hf
  have hjoin : ((p.parent).getD FsPath.emptyPath).join ((p.file_name).getD "") = p := by
    rw [hf, Option.getD_some, hpar, Option.getD_some, FsPath.join, if_neg hne]
    show FsPath.mk p.absolute (p.comps.dropLast ++ [f]) = p
    rw [← hgl, List.dropLast_append_getLast hcomps]
  unfold PathIndex.register_file
  split
  · next dir_id hlk =>
    unfold PathIndex.get_file_path
    simp only
    rw [List.get?_concat_length]
    simp only
    have hmem := lookupDir_mem _ _ _ hlk
    have hdir := hwf _ hmem
    simp only at hdir
    rw [hdir]
    show some (((p.parent).getD FsPath.emptyPath).join ((p.file_name).getD "")) = some p
    rw [hjoin]
  · next hlk =>
    unfold PathIndex.get_file_path
    simp only
    rw [List.get?_concat_length]
    simp only
    rw [List.get?_concat_length]
    show some (((p.parent).getD FsPath.emptyPath).join ((p.file_name).getD "")) = some p
    rw [hjoin]

/-- Witness for C2 (amended) at a concrete path with a file name on a
fresh index. -/
theorem C2_register_roundtrip_witness :
    ((PathIndex.new ⟨3, [1], 0⟩ ⟨true, ["r"]⟩).register_file
        ⟨true, ["r", "a.txt"]⟩).2.get_file_path
      ((PathIndex.new ⟨3, [1], 0⟩ ⟨true, ["r"]⟩).register_file
        ⟨true, ["r", "a.txt"]⟩).1 = some ⟨true, ["r", "a.txt"]⟩ :=
  C2_register_roundtrip (PathIndex.new ⟨3, [1], 0⟩ ⟨true, ["r"]⟩)
    ⟨true, ["r", "a.txt"]⟩ "a.txt" (by decide) (by decide) (by decide)



theorem filterCandidate_empty_matcher (options : QueryOptions) (path : FsPath) :
    filterCandidate options (some []) path = none := by
  unfold filterCandidate
  split
  · have hc : (match some ([] : List (List GlobToken)) with
        | some matcher =>
          match path.file_name with
          | some filename => globSetMatch matcher filename
          | none => false
        | none => true) = false := by
      cases path.file_name <;> rfl
    rw [hc]
    rfl
  · rfl

/-- Claim C8: glob post-filters never surface an `InvalidPattern` error:
a pattern that fails to compile is silently dropped from the compiled
set, and when every supplied pattern is invalid the resulting empty glob
set matches no filename, so every candidate is filtered out and the
result's `files` list is empty (rather than an error being returned). -/
theorem C8_invalid_glob_patterns_dropped {κ : Type} [DecidableEq κ]
    (hashToken : List Nat → κ) (path_index : PathIndex)
    (exact_index : ExactTokenIndex κ) (trigram_index : TrigramIndex)
    (bitmap : List Nat) (q : List Nat) (options : QueryOptions)
    (patterns : List String)
    (hpat : options.glob_patterns = some patterns)
    (hbad : ∀ p ∈ patterns, compileGlobCI p = none) :
    resolve_file_ids path_index bitmap options = [] ∧
    (query_exact hashToken path_index exact_index q options).files = [] ∧
    (query_fuzzy path_index trigram_index q options).files = [] := by
  have hcomp : patterns.filterMap compileGlobCI = [] :=
    List.filterMap_eq_nil.mpr hbad
  have hfm : ∀ bm : List Nat, bm.filterMap (fun id =>
      match path_index.get_file_path id with
      | none => none
      | some path =>
        filterCandidate options
          (options.glob_patterns.map (fun ps => ps.filterMap compileGlobCI))
          path) = [] := by
    intro bm
    apply List.filterMap_eq_nil.mpr
    intro id _
    rw [hpat]
    cases path_index.get_file_path id with
    | none => rfl
    | some path =>
      show filterCandidate options (some (patterns.filterMap compileGlobCI)) path = none
      rw [hcomp]
      exact filterCandidate_empty_matcher options path
  have hres : ∀ bm : List Nat, resolve_file_ids path_index bm options = [] := by
    intro bm
    unfold resolve_file_ids
    split
    · rw [hfm bm]
      exact List.take_nil
    · exact hfm bm
  refine ⟨hres bitmap, ?_, ?_⟩
  · unfold query_exact
    split
    · rfl
    · split
      · rfl
      · exact hres _
  · unfold query_fuzzy
    split
    · rfl
    · split
      · rfl
      · exact hres _

/-- Witness for C8: the sole pattern `[` fails to compile; the query's
candidate set is filtered to nothing. -/
theorem C8_invalid_glob_patterns_witness :
    resolve_file_ids (PathIndex.new ⟨3, [1], 0⟩ ⟨true, ["r"]⟩) [0]
      ⟨none, true, none, some ["["], none⟩ = [] :=
  (C8_invalid_glob_patterns_dropped (fun _ => (0 : Nat))
    (PathIndex.new ⟨3, [1], 0⟩ ⟨true, ["r"]⟩) ⟨⟨3, [1], 0⟩, []⟩ ⟨⟨3, [1], 0⟩, []⟩
    [0] [] ⟨none, true, none, some ["["], none⟩ ["["] rfl (by decide)).1

deriving instance DecidableEq for Except

/-- Claim C9: `glob_files` matches its pattern against filenames
case-sensitively — the pattern `*.rs` does not match the filename
`MAIN.RS` — unlike the query planner's `glob_patterns` post-filter,
which compiles every pattern case-insensitively and does match it. -/
theorem C9_glob_files_case_sensitive :
    glob_files (⟨[], [⟨true, ["proj"]⟩], [(0, "MAIN.RS")], [],
        ⟨2, 0, ⟨true, ["proj"]⟩, 1, 0⟩⟩ : TokenIndex Nat) "*.rs" ⟨none⟩ =
      .ok ⟨[], "*.rs", 1⟩ ∧
    resolve_file_ids ⟨⟨3, [1], 0⟩, ⟨true, ["proj"]⟩, [⟨true, ["proj"]⟩],
        [(0, "MAIN.RS")], [(⟨true, ["proj"]⟩, 0)]⟩ [0]
      ⟨none, true, none, some ["*.rs"], none⟩ =
      [⟨true, ["proj", "MAIN.RS"]⟩] := by decide

/-- Claim C10: all three scanners terminate on every finite input.  Each
`next()` call either returns `None` or strictly advances the scan
position (for the trigram iterator: strictly decreases the combined
bytes-left-plus-windows-left measure, and in particular
`ExactTokenIterator` steps over a byte that is neither a token byte nor a
listed delimiter instead of looping), so exhausting any iterator takes
finitely many steps — at most the input length (resp. the measure). -/
theorem C10_scanners_terminate :
    (∀ content pos tok p2, tokenNextTok content pos = some (tok, p2) → pos < p2) ∧
    (∀ content pos tok p2, exactNextTok content pos = some (tok, p2) → pos < p2) ∧
    (∀ content s t s2, trigramNext content s = some (t, s2) →
      trigramMeasure content s2 < trigramMeasure content s) ∧
    (∀ content pos, (tokenRun content pos).length ≤ content.length - pos) ∧
    (∀ content pos, (exactRun content pos).length ≤ content.length - pos) ∧
    (∀ content s, (trigramRun content s).length ≤ trigramMeasure content s) :=
  ⟨fun c p t p2 h => (tokenNextTok_lt c p t p2 h).1,
   fun c p t p2 h => (exactNextTok_lt c p t p2 h).1,
   trigramNext_measure_lt, tokenRun_length_le, exactRun_length_le, trigramRun_length_le⟩

theorem skipExactDelims_ab : skipExactDelims [65, 66] 0 = 0 := by
  rw [skipExactDelims, advanceWhile_done]
  decide

theorem readExactEnd_ab : readExactEnd [65, 66] 0 = 2 := by
  rw [readExactEnd, advanceWhile_step, advanceWhile_step, advanceWhile_done] <;> decide

theorem exactNextTok_ab : exactNextTok [65, 66] 0 = some ([65, 66], 2) := by
  have h := exactNextTok_of_some [65, 66] 0
    (by rw [skipExactDelims_ab]; decide)
    (by rw [skipExactDelims_ab, readExactEnd_ab]; decide)
    (by rw [skipExactDelims_ab, readExactEnd_ab]; decide)
  rw [h, skipExactDelims_ab, readExactEnd_ab]
  decide

theorem exactNextTok_ab_end : exactNextTok [65, 66] 2 = none := by
  apply exactNextTok_of_end
  have hs : skipExactDelims [65, 66] 2 = 2 := by
    rw [skipExactDelims, advanceWhile_done]
    decide
  rw [hs]
  decide

/-- Evaluation: the exact tokenizer of `"AB"` yields the single token
`AB`. -/
theorem exactRun_ab : exactRun [65, 66] 0 = [[65, 66]] := by
  rw [exactRun_of_some [65, 66] 0 ([65, 66], 2) exactNextTok_ab,
    exactRun_of_none [65, 66] 2 exactNextTok_ab_end]

/-- Evaluation: `"AB"` is shorter than a trigram, so no trigrams. -/
theorem extract_trigrams_ab : extract_trigrams [65, 66] = [] := by
  apply trigramRun_of_none
  apply trigramNext_of_done
  · decide
  · have hs : skipTrigramDelims [65, 66] 0 = 0 := by
      rw [skipTrigramDelims, advanceWhile_done]
      decide
    have hr : readTrigramEnd [65, 66] 0 = 2 := by
      rw [readTrigramEnd, advanceWhile_step, advanceWhile_step, advanceWhile_done] <;> decide
    have h1 := readNextToken_of_short [65, 66] 0
      (by rw [hs]; decide)
      (by rw [hs, hr]; decide)
    rw [hs, hr] at h1
    rw [h1]
    apply readNextToken_of_end
    have hs2 : skipTrigramDelims [65, 66] 2 = 2 := by
      rw [skipTrigramDelims, advanceWhile_done]
      decide
    rw [hs2]
    decide

/-- Evaluation: the worker's record for a file containing `"AB"`. -/
theorem process_single_file_ab :
    process_single_file (fun t : List Nat => t) 0 [65, 66] = ⟨0, [[65, 66]], []⟩ := by
  have hlen : ¬ ([65, 66] : List Nat).length = 0 := by decide
  have hnul : ¬ (([65, 66] : List Nat).take
      (min 8192 ([65, 66] : List Nat).length)).contains 0 = true := by decide
  unfold process_single_file extract_exact_tokens_from_file extract_trigrams_from_file
  rw [if_neg hlen, if_neg hnul, if_neg hlen, if_neg hnul,
    tokenize_exact, exactRun_ab, extract_trigrams_ab]
  decide

/-- Claim C1 (supporting evidence for the code bug): the build pipeline
of src/scanner.rs produces no case-insensitive postings.  For a build
over one file containing `"AB"` (keyed here by the raw token bytes, so
the posting keys are readable), the single exact index the triple
carries holds a posting for `AB` but none for the lowercased token `ab`,
and neither the worker record type (`FileProcessingResult`: `file_id`,
`exact_tokens`, `trigrams`) nor the return type of
`scan_and_build_indexes` has an exact-lower component at all. -/
theorem C1_pipeline_produces_no_exact_lower :
    (scan_and_build_indexes (fun t : List Nat => t) ⟨3, [7], 9⟩ ⟨true, ["r"]⟩
        [(⟨true, ["r", "a.txt"]⟩, [65, 66])]).2.1.get_bitmap [65, 66] = some [0] ∧
    (scan_and_build_indexes (fun t : List Nat => t) ⟨3, [7], 9⟩ ⟨true, ["r"]⟩
        [(⟨true, ["r", "a.txt"]⟩, [65, 66])]).2.1.get_bitmap [97, 98] = none := by
  unfold scan_and_build_indexes
  have hc2 : (coordinate (fun t : List Nat => t) ⟨3, [7], 9⟩ ⟨true, ["r"]⟩
      [(⟨true, ["r", "a.txt"]⟩, [65, 66])]).2 = [⟨0, [[65, 66]], []⟩] := by
    show [process_single_file (fun t : List Nat => t) 0 [65, 66]] = [⟨0, [[65, 66]], []⟩]
    rw [process_single_file_ab]
  rw [hc2]
  constructor <;> decide



/-- Witness for C10: on input `"\x01ab"` — whose first byte is neither a
token byte nor a listed delimiter — the exact iterator's `next()` steps
over the unknown byte and returns the token `ab`, strictly advancing the
position from 0 to 3. -/
theorem C10_scanners_terminate_witness :
    exactNextTok [1, 97, 98] 0 = some ([97, 98], 3) ∧ (0 : Nat) < 3 := by
  have hs0 : skipExactDelims [1, 97, 98] 0 = 0 := by
    rw [skipExactDelims, advanceWhile_done]
    decide
  have hr0 : readExactEnd [1, 97, 98] 0 = 0 := by
    rw [readExactEnd, advanceWhile_done]
    decide
  have hstep := exactNextTok_of_unknown [1, 97, 98] 0
    (by rw [hs0]; decide) (by rw [hs0, hr0]; decide)
  rw [hs0] at hstep
  have hstep2 : exactNextTok [1, 97, 98] 0 = exactNextTok [1, 97, 98] 1 := by
    rw [hstep]
  have hs1 : skipExactDelims [1, 97, 98] 1 = 1 := by
    rw [skipExactDelims, advanceWhile_done]
    decide
  have hr1 : readExactEnd [1, 97, 98] 1 = 3 := by
    rw [readExactEnd, advanceWhile_step, advanceWhile_step, advanceWhile_done] <;> decide
  have hsome := exactNextTok_of_some [1, 97, 98] 1
    (by rw [hs1]; decide) (by rw [hs1, hr1]; decide) (by rw [hs1, hr1]; decide)
  rw [hs1, hr1] at hsome
  have h : exactNextTok [1, 97, 98] 0 = some ([97, 98], 3) := by
    rw [hstep2, hsome]
    decide
  exact ⟨h, C10_scanners_terminate.2.1 [1, 97, 98] 0 [97, 98] 3 h⟩

end Tokenizer
